import Mathlib

/-!
Verification of the `tt` typing-test driver (`tt.go`).

The repository's only provided source file is the top-level driver
`tt.go`: flag handling, stdin segmentation, theme resolution, the
`Start`/dispatch loop, statistics derivation, and CSV output at exit.
The typing engine itself (`Typer.Start`, `NewTyper`), `wordWrap`,
`randomText`, `newTcellColor` and the `themes` table live in other files
of the repository and are treated as external: they appear here either
as parameters or as definitions explicitly modelled from the spec.

Conventions of the embedding:
* Go strings are `List Char`.
* Go `float64` values are modelled as exact rationals `ℚ`; a `float64`
  operation whose result is non-finite (NaN or an infinity, e.g. a
  division with zero divisor) is modelled as `none : Option ℚ`.
* Go `int` / `time.Duration` / `tcell.Key` are modelled as `ℤ`;
  Go integer division truncates toward zero, hence `Int.tdiv`.
-/

namespace TT

/-- Go conversion `int(x)` from `float64`: truncation toward zero. -/
def goTrunc (x : ℚ) : ℤ :=
  if 0 ≤ x then ⌊x⌋ else -⌊-x⌋

/-- Go integer division `a / b`: truncation toward zero (`Int.tdiv`). -/
def goIntDiv (a b : ℤ) : ℤ :=
  Int.tdiv a b

/-- Go `float64` division. A zero divisor yields a non-finite result in
Go (NaN for `0/0`, an infinity otherwise), modelled as `none`. -/
def goFloatDiv (a b : ℚ) : Option ℚ :=
  if b = 0 then none else some (a / b)

/-- Go `float64` multiplication by a finite constant; a non-finite
operand stays non-finite. -/
def goFloatMul (a : Option ℚ) (c : ℚ) : Option ℚ :=
  a.map (fun x => x * c)

/-- The value of `tcell.KeyCtrlC` (`0x03`, ETX) that `main` compares the
returned exit key against (tt.go line 238). -/
def keyCtrlC : ℤ := 3

/-- The tuple returned by one call of the engine's `Start`
(tt.go line 225): error count, correct count, elapsed nanoseconds, and
the exit key. `Start` is not part of the provided source; its returns
are environment inputs to the driver model. -/
structure RunOutcome where
  nerrs : ℕ
  ncorrect : ℕ
  t : ℤ
  exitKey : ℤ
deriving DecidableEq, Repr

/-- The `result` record appended to the global `results` slice
(tt.go lines 22-26): `wpm`, `cpm` (Go `int`) and `accuracy`
(Go `float64`, so `Option ℚ` here, `none` for a non-finite value). -/
structure Result where
  wpm : ℤ
  cpm : ℤ
  accuracy : Option ℚ
deriving DecidableEq, Repr

/-- Statistics derivation of tt.go lines 229-233, performed when
`exitKey == 0`:
`cpm := int(float64(ncorrect) / (float64(t) / 60E9))`,
`wpm := cpm / 5`,
`accuracy := float64(ncorrect) / float64(nerrs+ncorrect) * 100`. -/
def recordResult (o : RunOutcome) : Result :=
  let cpm := goTrunc ((o.ncorrect : ℚ) / ((o.t : ℚ) / 60000000000))
  let wpm := goIntDiv cpm 5
  let accuracy := goFloatMul (goFloatDiv (o.ncorrect : ℚ) ((o.nerrs + o.ncorrect : ℕ) : ℚ)) 100
  ⟨wpm, cpm, accuracy⟩

/-- Observable effect of one iteration of the `for` loop in `main`
(tt.go lines 224-241). -/
structure StepEffect where
  results : List Result
  displayed : Bool
  terminated : Bool
deriving DecidableEq, Repr

/-- One iteration of the driver loop after `Start` returns
(tt.go lines 227-240): `case 0` computes the statistics, appends to
`results`, then either exits (one-shot mode) or shows the report
screen; `case tcell.KeyCtrlC` calls `exit()`; any other key falls
through the `switch` and the loop simply runs again. -/
def loopStep (oneShot : Bool) (results : List Result) (o : RunOutcome) : StepEffect :=
  if o.exitKey = 0 then
    let rs := results ++ [recordResult o]
    if oneShot then ⟨rs, false, true⟩ else ⟨rs, true, false⟩
  else if o.exitKey = keyCtrlC then
    ⟨results, false, true⟩
  else
    ⟨results, false, false⟩

/-- Arguments of one call `typer.Start(contentFn(), time.Duration(timeout))`
(tt.go line 225), together with the `SkipWord` configuration the engine
holds at that point. -/
structure StartCall where
  content : List (List Char)
  timeout : ℤ
  skipWord : Bool
deriving DecidableEq, Repr

/-- The driver loop of `main` (tt.go lines 224-241), with the engine's
successive returns supplied as the oracle list `outcomes`. `contentFn`
is the content closure; it takes the call number so that the model
records that the closure is invoked afresh on every iteration. `k` is
the current call number. Returns the list of `Start` calls made, the
final `results` log, and whether the program terminated via `exit()`. -/
def driverRun (oneShot skipWord : Bool) (timeout : ℤ)
    (contentFn : ℕ → List (List Char)) (outcomes : List RunOutcome)
    (k : ℕ) (results : List Result) : List StartCall × List Result × Bool :=
  match outcomes with
  | [] => ([], results, false)
  | o :: rest =>
      let call : StartCall := ⟨contentFn k, timeout, skipWord⟩
      let e := loopStep oneShot results o
      if e.terminated then ([call], e.results, true)
      else
        let r := driverRun oneShot skipWord timeout contentFn rest (k + 1) e.results
        (call :: r.1, r.2.1, r.2.2)

/-- Timeout conversion of tt.go lines 220-222: the `-t` flag value
(default `-1`, line 90) is multiplied by `1E9` unless it is `-1`. -/
def effTimeout (t : ℤ) : ℤ :=
  if t ≠ -1 then t * 1000000000 else t

/-- Default value of the `-t` flag (tt.go line 90). -/
def timeoutFlagDefault : ℤ := -1

/-- Modelled from the spec: `NewTyper` is not among the provided source
files; per the spec, `SkipWord` is `true` by default at engine
construction. -/
def skipWordDefault : Bool := true

/-- `SkipWord` after construction (tt.go lines 216-219): `NewTyper`'s
default, then set to `false` exactly when the `-noskip` flag is given. -/
def skipWordAfterInit (noSkip : Bool) : Bool :=
  if noSkip then false else skipWordDefault

/-- Modelled from the spec: the engine (`Typer.Start`, not among the
provided source files) refuses to finish a run with zero elapsed time,
enforcing a minimum attempt duration floor of one clock tick on the
elapsed duration it reports. -/
def reportedElapsed (raw : ℕ) : ℕ :=
  max raw 1

/-! ### Content segmentation of piped stdin (tt.go lines 130-151) -/

/-- `strings.Replace(s, "\r", "", -1)` (tt.go line 139). -/
def removeCR (l : List Char) : List Char :=
  l.filter (fun c => c ≠ '\r')

/-- Helper for `collapse`: `n` is the length of the run of `'\n'`
characters read so far; a maximal run is emitted capped at two. -/
def collapseAux : ℕ → List Char → List Char
  | n, [] => List.replicate (min n 2) '\n'
  | n, c :: rest =>
      if c = '\n' then collapseAux (n + 1) rest
      else List.replicate (min n 2) '\n' ++ c :: collapseAux 0 rest

/-- `regexp.MustCompile("\n\n+").ReplaceAllString(s, "\n\n")`
(tt.go line 140): every maximal run of two or more newlines becomes
exactly two newlines. -/
def collapse (l : List Char) : List Char :=
  collapseAux 0 l

/-- Leading-edge part of Go `strings.Trim(s, cutset)` for a one-character
cutset. -/
def dropLeadC (c : Char) (l : List Char) : List Char :=
  l.dropWhile (fun d => d = c)

/-- Trailing-edge part of Go `strings.Trim(s, cutset)` for a
one-character cutset. -/
def dropTrailC (c : Char) (l : List Char) : List Char :=
  (dropLeadC c l.reverse).reverse

/-- Go `strings.Trim(s, cutset)` for a one-character cutset, as used at
tt.go lines 141 (`"\n"`) and 144 (`" "`). -/
def trimChar (c : Char) (l : List Char) : List Char :=
  dropTrailC c (dropLeadC c l)

/-- Helper for `split2NL`: Go `strings.Split(s, "\n\n")` scanned one
character at a time; `p` records whether the previous character was a
`'\n'` not yet committed to the current piece. Returns the remainder of
the current piece and the pieces after it. -/
def splitAux : Bool → List Char → List Char × List (List Char)
  | p, [] => (if p then ['\n'] else [], [])
  | p, c :: rest =>
      if c = '\n' then
        if p then
          let r := splitAux false rest
          ([], r.1 :: r.2)
        else splitAux true rest
      else
        let r := splitAux false rest
        ((if p then ['\n'] else []) ++ c :: r.1, r.2)

/-- Go `strings.Split(s, "\n\n")` (tt.go line 141): split around each
leftmost non-overlapping occurrence of two consecutive newlines. -/
def split2NL (l : List Char) : List (List Char) :=
  (splitAux false l).1 :: (splitAux false l).2

/-- Helper for `paraSplit`: `n` is the length of the pending newline
run; a run of length at least two is a paragraph boundary. Returns the
remainder of the current paragraph and the paragraphs after it. -/
def paraAux : ℕ → List Char → List Char × List (List Char)
  | n, [] => if 2 ≤ n then ([], [[]]) else (List.replicate n '\n', [])
  | n, c :: rest =>
      if c = '\n' then paraAux (n + 1) rest
      else
        let r := paraAux 0 rest
        if 2 ≤ n then ([], (c :: r.1) :: r.2)
        else (List.replicate n '\n' ++ c :: r.1, r.2)

/-- Splitting a text at each maximal run of two or more newlines (the
paragraph boundaries: one or more blank lines), keeping the chunks in
input order. This is the specification-side notion of paragraph
splitting, to be compared with the source's collapse-then-split. -/
def paraSplit (l : List Char) : List (List Char) :=
  (paraAux 0 l).1 :: (paraAux 0 l).2

/-- `strings.Replace(s, "\n", " \n", -1)` (tt.go line 144). -/
def nlToSpNl (l : List Char) : List Char :=
  l.flatMap (fun c => if c = '\n' then [' ', '\n'] else [c])

/-- The per-paragraph rewrite of tt.go line 144:
`strings.Replace(wordWrap(strings.Trim(p, " "), wrapSz), "\n", " \n", -1)`.
`wordWrap` is not among the provided source files, so it (already
applied to the wrap width) is a parameter `w`. -/
def transform (w : List Char → List Char) (p : List Char) : List Char :=
  nlToSpNl (w (trimChar ' ' p))

/-- The content list built from piped stdin when `-raw` is absent
(tt.go lines 139-147): strip carriage returns, collapse newline runs,
trim edge newlines, split on `"\n\n"`, then rewrite each piece. -/
def pipedContent (w : List Char → List Char) (b : List Char) : List (List Char) :=
  (split2NL (trimChar '\n' (collapse (removeCR b)))).map (transform w)

/-- The content list built from piped stdin when `-raw` is given
(tt.go line 137): the whole input as a single unmodified segment. -/
def rawContent (b : List Char) : List (List Char) :=
  [b]

/-- Specification-side paragraph list of the piped input: the text
(with carriage returns stripped, and the newline runs at the two edges
of the whole input discarded) split at each run of one or more blank
lines, one chunk per paragraph in input order. -/
def specParagraphs (b : List Char) : List (List Char) :=
  paraSplit (trimChar '\n' (removeCR b))

/-! ### CSV output at exit (tt.go lines 48-58) -/

/-- The character for one decimal digit. -/
def digChar (d : ℕ) : Char :=
  ['0', '1', '2', '3', '4', '5', '6', '7', '8', '9'].getD d '*'

/-- Decimal digits of a natural number, most significant first; the
first argument is recursion fuel (always sufficient at `n + 1`). -/
def natStrAux : ℕ → ℕ → List Char
  | 0, _ => []
  | fuel + 1, n =>
      if n < 10 then [digChar n]
      else natStrAux fuel (n / 10) ++ [digChar (n % 10)]

/-- Go `%d` rendering of a natural number. -/
def natStr (n : ℕ) : List Char :=
  natStrAux (n + 1) n

/-- Go `%d` rendering of an `int`. -/
def intStr (z : ℤ) : List Char :=
  if z < 0 then '-' :: natStr (-z).toNat else natStr z.toNat

/-- Go `%.2f` rendering of a `float64` value (modelled as `Option ℚ`):
`NaN` for a non-finite value, otherwise the value rounded to two decimal
digits and printed with exactly two digits after the point. (Go rounds
the underlying binary double to nearest; the exact-rational model rounds
to nearest with halves up.) -/
def fmt2 (a : Option ℚ) : List Char :=
  match a with
  | none => ['N', 'a', 'N']
  | some q =>
      let n : ℤ := ⌊q * 100 + 1 / 2⌋
      if n < 0 then
        '-' :: (natStr ((-n).toNat / 100) ++ ['.', digChar ((-n).toNat / 10 % 10), digChar ((-n).toNat % 10)])
      else
        natStr (n.toNat / 100) ++ ['.', digChar (n.toNat / 10 % 10), digChar (n.toNat % 10)]

/-- One line of the CSV output: `fmt.Printf("%d,%d,%.2f\n", r.wpm,
r.cpm, r.accuracy)` (tt.go line 53), without the trailing newline
(lines are the elements of the output list). -/
def csvLine (r : Result) : List Char :=
  intStr r.wpm ++ [','] ++ intStr r.cpm ++ [','] ++ fmt2 r.accuracy

/-- The lines printed to stdout by `exit()` (tt.go lines 48-58): one
line per element of `results`, in order, when `csvMode` is set; nothing
otherwise. -/
def exitOutput (csvMode : Bool) (results : List Result) : List (List Char) :=
  if csvMode then results.map csvLine else []

/-! ### Theme resolution (tt.go lines 155-205) and config parsing -/

/-- The six colours selected by `main`. Go's `newTcellColor` is applied
uniformly to each selected string afterwards; it is not among the
provided source files, so resolution is modelled at the level of the
selected colour strings. -/
structure ThemeColors where
  bgcol : List Char
  fgcol : List Char
  hicol : List Char
  hicol2 : List Char
  hicol3 : List Char
  errcol : List Char
deriving DecidableEq, Repr

/-- The fixed keys read from a theme map and the config map. -/
def kBgcol : List Char := ['b', 'g', 'c', 'o', 'l']

def kFgcol : List Char := ['f', 'g', 'c', 'o', 'l']

def kHicol : List Char := ['h', 'i', 'c', 'o', 'l']

def kHicol2 : List Char := ['h', 'i', 'c', 'o', 'l', '2']

def kHicol3 : List Char := ['h', 'i', 'c', 'o', 'l', '3']

def kErrcol : List Char := ['e', 'r', 'r', 'c', 'o', 'l']

def kTheme : List Char := ['t', 'h', 'e', 'm', 'e']

def kDefault : List Char := ['d', 'e', 'f', 'a', 'u', 'l', 't']

/-- The six colour strings of a theme map (a Go `map[string]string`,
modelled as a total function returning the zero value for absent keys,
as Go map indexing does at tt.go lines 163-168 and 179-184). -/
def colorsOfTheme (th : List Char → List Char) : ThemeColors :=
  ⟨th kBgcol, th kFgcol, th kHicol, th kHicol2, th kHicol3, th kErrcol⟩

/-- One `if c, ok := cfg[k]; ok { col = newTcellColor(c) }` override
(tt.go lines 187-204). -/
def overrideColor (cfg : List Char → Option (List Char)) (k : List Char) (base : List Char) : List Char :=
  match cfg k with
  | some c => c
  | none => base

/-- Theme map used as base when the `-theme` flag is absent
(tt.go lines 171-177): the config file's `theme` entry when it names a
known theme, the `default` theme otherwise. Indexing `themes["default"]`
has no ok-check in the source, so an absent `default` yields the zero
value (the nil map, every lookup `""`). -/
def baseTheme (themes : List Char → Option (List Char → List Char))
    (cfg : List Char → Option (List Char)) : List Char → List Char :=
  let dflt := (themes kDefault).getD (fun _ => [])
  match cfg kTheme with
  | some c =>
      match themes c with
      | some v => v
      | none => dflt
  | none => dflt

/-- Theme resolution of tt.go lines 155-205. `themes` is the theme
table (defined outside the provided source files) and `cfg` the parsed
`~/.ttrc` map; `Except.error ()` models printing the error message and
exiting with status 1 (lines 160-161). -/
def resolveTheme (themes : List Char → Option (List Char → List Char))
    (cfg : List Char → Option (List Char)) (themeName : List Char) :
    Except Unit ThemeColors :=
  if themeName ≠ [] then
    match themes themeName with
    | none => Except.error ()
    | some theme => Except.ok (colorsOfTheme theme)
  else
    let base := colorsOfTheme (baseTheme themes cfg)
    Except.ok
      ⟨overrideColor cfg kBgcol base.bgcol,
       overrideColor cfg kFgcol base.fgcol,
       overrideColor cfg kHicol base.hicol,
       overrideColor cfg kHicol2 base.hicol2,
       overrideColor cfg kHicol3 base.hicol3,
       overrideColor cfg kErrcol base.errcol⟩

/-- Helper: split a text at every occurrence of the character `c`
(Go `bytes.Split(b, "\n")` at tt.go line 37). -/
def splitChAux (c : Char) : List Char → List Char × List (List Char)
  | [] => ([], [])
  | d :: rest =>
      let r := splitChAux c rest
      if d = c then ([], r.1 :: r.2) else (d :: r.1, r.2)

/-- Go `bytes.Split(b, sep)` for a one-character separator. -/
def splitCh (c : Char) (l : List Char) : List (List Char) :=
  (splitChAux c l).1 :: (splitChAux c l).2

/-- Go `strings.SplitN(s, ":", 2)` (tt.go line 38), reported as the
two parts around the first colon, or `none` when the line has no colon
(in which case `len(a) == 2` fails and the line is skipped). -/
def splitN2 (c : Char) : List Char → Option (List Char × List Char)
  | [] => none
  | d :: rest =>
      if d = c then some ([], rest)
      else (splitN2 c rest).map (fun p => (d :: p.1, p.2))

/-- `readConfig` (tt.go lines 30-46): each line of `~/.ttrc` of the
form `key:value` yields a binding with the value trimmed of spaces;
lines without a colon are skipped. Later bindings overwrite earlier
ones, as in the Go map. -/
def readConfig (b : List Char) : List (List Char × List Char) :=
  (splitCh '\n' b).foldl
    (fun acc ln =>
      match splitN2 ':' ln with
      | some p => acc ++ [(p.1, trimChar ' ' p.2)]
      | none => acc)
    []

/-- Lookup in the config map built by `readConfig`: the last binding
for a key wins (Go map assignment overwrites). -/
def cfgGet (entries : List (List Char × List Char)) (k : List Char) : Option (List Char) :=
  (entries.reverse.find? (fun e => e.1 = k)).map (fun e => e.2)

/-! ### Bridge lemmas: collapse-then-split equals splitting on newline runs -/

theorem collapseAux_cons_nl (n : ℕ) (rest : List Char) :
    collapseAux n ('\n' :: rest) = collapseAux (n + 1) rest := by
  simp [collapseAux]

theorem collapseAux_cons_ne {c : Char} (hc : c ≠ '\n') (n : ℕ) (rest : List Char) :
    collapseAux n (c :: rest) = List.replicate (min n 2) '\n' ++ c :: collapseAux 0 rest := by
  simp [collapseAux, hc]

theorem splitAux_cons_nl_t (rest : List Char) :
    splitAux true ('\n' :: rest) = ([], (splitAux false rest).1 :: (splitAux false rest).2) := by
  simp [splitAux]

theorem splitAux_cons_nl_f (rest : List Char) :
    splitAux false ('\n' :: rest) = splitAux true rest := by
  simp [splitAux]

theorem splitAux_cons_ne {c : Char} (hc : c ≠ '\n') (p : Bool) (rest : List Char) :
    splitAux p (c :: rest)
      = ((if p then ['\n'] else []) ++ c :: (splitAux false rest).1, (splitAux false rest).2) := by
  cases p <;> simp [splitAux, hc]

theorem paraAux_cons_nl (n : ℕ) (rest : List Char) :
    paraAux n ('\n' :: rest) = paraAux (n + 1) rest := by
  simp [paraAux]

theorem paraAux_cons_ne {c : Char} (hc : c ≠ '\n') (n : ℕ) (rest : List Char) :
    paraAux n (c :: rest)
      = if 2 ≤ n then ([], (c :: (paraAux 0 rest).1) :: (paraAux 0 rest).2)
        else (List.replicate n '\n' ++ c :: (paraAux 0 rest).1, (paraAux 0 rest).2) := by
  simp [paraAux, hc]

theorem collapseAux_replicate (k m : ℕ) :
    collapseAux m (List.replicate k '\n') = List.replicate (min (m + k) 2) '\n' := by
  induction k generalizing m with
  | zero => simp [collapseAux]
  | succ k ih =>
      rw [List.replicate_succ, collapseAux_cons_nl, ih]
      have h1 : m + 1 + k = m + (k + 1) := by omega
      rw [h1]

theorem collapseAux_append_run {c : Char} (hc : c ≠ '\n') (l : List Char) (m n : ℕ) :
    collapseAux m (l ++ c :: List.replicate n '\n')
      = collapseAux m l ++ c :: List.replicate (min n 2) '\n' := by
  induction l generalizing m with
  | nil =>
      rw [List.nil_append, collapseAux_cons_ne hc, collapseAux_replicate]
      simp [collapseAux]
  | cons d rest ih =>
      by_cases hd : d = '\n'
      · subst hd
        rw [List.cons_append, collapseAux_cons_nl, collapseAux_cons_nl, ih]
      · rw [List.cons_append, collapseAux_cons_ne hd, collapseAux_cons_ne hd, ih]
        simp

theorem reverse_collapseAux (r : List Char) (n : ℕ) :
    (collapseAux n r).reverse = collapseAux 0 (r.reverse ++ List.replicate n '\n') := by
  induction r generalizing n with
  | nil => simp [collapseAux, collapseAux_replicate, List.replicate]
  | cons c rest ih =>
      by_cases hc : c = '\n'
      · subst hc
        rw [collapseAux_cons_nl, ih]
        simp [List.replicate_succ]
      · rw [collapseAux_cons_ne hc]
        rw [List.reverse_cons, List.append_assoc, List.singleton_append]
        rw [collapseAux_append_run hc _ 0 n]
        have h0 := ih 0
        simp only [List.replicate, List.append_nil] at h0
        rw [List.reverse_append, List.reverse_cons, List.reverse_replicate, h0]
        simp

theorem collapse_reverse (l : List Char) :
    (collapse l).reverse = collapse l.reverse := by
  have h := reverse_collapseAux l 0
  simpa [collapse] using h

theorem dropLeadC_replicate_append (k : ℕ) (z : List Char) :
    dropLeadC '\n' (List.replicate k '\n' ++ z) = dropLeadC '\n' z := by
  induction k with
  | zero => simp
  | succ k ih => simp [List.replicate_succ, dropLeadC, List.dropWhile, ih]

theorem dropLeadC_collapseAux (x : List Char) (n : ℕ) :
    dropLeadC '\n' (collapseAux n x) = collapseAux 0 (dropLeadC '\n' x) := by
  induction x generalizing n with
  | nil =>
      have h := dropLeadC_replicate_append (min n 2) []
      simp only [List.append_nil] at h
      simp [collapseAux, h, dropLeadC]
  | cons c rest ih =>
      by_cases hc : c = '\n'
      · subst hc
        rw [collapseAux_cons_nl, ih]
        simp [dropLeadC, List.dropWhile]
      · rw [collapseAux_cons_ne hc, dropLeadC_replicate_append]
        simp [dropLeadC, List.dropWhile, hc, collapseAux]

theorem dropLeadC_collapse (x : List Char) :
    dropLeadC '\n' (collapse x) = collapse (dropLeadC '\n' x) := by
  simpa [collapse] using dropLeadC_collapseAux x 0

theorem dropTrailC_collapse (y : List Char) :
    dropTrailC '\n' (collapse y) = collapse (dropTrailC '\n' y) := by
  unfold dropTrailC
  rw [collapse_reverse]
  rw [dropLeadC_collapse]
  rw [← collapse_reverse]

theorem trimChar_collapse (x : List Char) :
    trimChar '\n' (collapse x) = collapse (trimChar '\n' x) := by
  unfold trimChar
  rw [dropLeadC_collapse, dropTrailC_collapse]

theorem splitAux_collapseAux (y : List Char) (n : ℕ) :
    splitAux false (collapseAux n y) = paraAux n y := by
  induction y generalizing n with
  | nil =>
      rcases n with _ | _ | n
      · simp [collapseAux, paraAux, splitAux]
      · simp [collapseAux, paraAux, splitAux, List.replicate]
      · have h2 : min (n + 1 + 1) 2 = 2 := by omega
        simp [collapseAux, paraAux, splitAux, h2, List.replicate]
  | cons c rest ih =>
      by_cases hc : c = '\n'
      · subst hc
        rw [collapseAux_cons_nl, paraAux_cons_nl]
        exact ih (n + 1)
      · rw [collapseAux_cons_ne hc, paraAux_cons_ne hc]
        rcases n with _ | _ | n
        · simp only [Nat.zero_min, List.replicate, List.nil_append]
          rw [splitAux_cons_ne hc, ih 0]
          simp
        · simp only [List.replicate, List.nil_append, List.cons_append]
          rw [splitAux_cons_nl_f, splitAux_cons_ne hc, ih 0]
          simp [List.replicate]
        · have h2 : min (n + 1 + 1) 2 = 2 := by omega
          rw [h2]
          simp only [List.replicate, List.nil_append, List.cons_append]
          rw [splitAux_cons_nl_f, splitAux_cons_nl_t, splitAux_cons_ne hc, ih 0]
          have hn2 : 2 ≤ n + 1 + 1 := by omega
          simp [hn2]

theorem split2NL_collapse (z : List Char) :
    split2NL (collapse z) = paraSplit z := by
  unfold split2NL paraSplit collapse
  rw [splitAux_collapseAux z 0]

theorem pipedContent_eq_specParagraphs (w : List Char → List Char) (b : List Char) :
    pipedContent w b = (specParagraphs b).map (transform w) := by
  unfold pipedContent specParagraphs
  rw [trimChar_collapse, split2NL_collapse]

/-! ### Helper lemmas for CSV formatting and the driver loop -/

theorem digChar_ne_dot (d : ℕ) : digChar d ≠ '.' := by
  rcases Nat.lt_or_ge d 10 with h | h
  · interval_cases d <;> decide
  · unfold digChar
    rw [List.getD_eq_default]
    · decide
    · simpa using h

theorem natStrAux_no_dot (fuel n : ℕ) : '.' ∉ natStrAux fuel n := by
  induction fuel generalizing n with
  | zero => simp [natStrAux]
  | succ fuel ih =>
      unfold natStrAux
      split
      · simp [digChar_ne_dot n]
        exact fun h => (digChar_ne_dot n h.symm)
      · simp only [List.mem_append, List.mem_singleton]
        rintro (h | h)
        · exact ih (n / 10) h
        · exact digChar_ne_dot (n % 10) h.symm

theorem natStr_no_dot (n : ℕ) : '.' ∉ natStr n :=
  natStrAux_no_dot (n + 1) n

theorem intStr_no_dot (z : ℤ) : '.' ∉ intStr z := by
  unfold intStr
  split
  · simp only [List.mem_cons]
    rintro (h | h)
    · exact absurd h.symm (by decide)
    · exact natStr_no_dot _ h
  · exact natStr_no_dot _

theorem fmt2_some_eq (q : ℚ) :
    fmt2 (some q)
      = if (⌊q * 100 + 1 / 2⌋ : ℤ) < 0 then
          '-' :: (natStr ((-⌊q * 100 + 1 / 2⌋).toNat / 100)
            ++ ['.', digChar ((-⌊q * 100 + 1 / 2⌋).toNat / 10 % 10), digChar ((-⌊q * 100 + 1 / 2⌋).toNat % 10)])
        else
          natStr ((⌊q * 100 + 1 / 2⌋).toNat / 100)
            ++ ['.', digChar ((⌊q * 100 + 1 / 2⌋).toNat / 10 % 10), digChar ((⌊q * 100 + 1 / 2⌋).toNat % 10)] :=
  rfl

/-- The finite-value branch of `%.2f` always renders as an integer part
followed by a point and exactly two digits, with no other point in the
line. -/
theorem fmt2_two_decimals (q : ℚ) :
    ∃ ip d1 d2, fmt2 (some q) = ip ++ ['.', d1, d2] ∧ '.' ∉ ip ∧ d1 ≠ '.' ∧ d2 ≠ '.' := by
  rw [fmt2_some_eq]
  by_cases hn : (⌊q * 100 + 1 / 2⌋ : ℤ) < 0
  · rw [if_pos hn]
    refine ⟨'-' :: natStr ((-⌊q * 100 + 1 / 2⌋).toNat / 100),
      digChar ((-⌊q * 100 + 1 / 2⌋).toNat / 10 % 10),
      digChar ((-⌊q * 100 + 1 / 2⌋).toNat % 10), by simp, ?_, digChar_ne_dot _, digChar_ne_dot _⟩
    simp only [List.mem_cons]
    rintro (h | h)
    · exact absurd h.symm (by decide)
    · exact natStr_no_dot _ h
  · rw [if_neg hn]
    exact ⟨natStr ((⌊q * 100 + 1 / 2⌋).toNat / 100),
      digChar ((⌊q * 100 + 1 / 2⌋).toNat / 10 % 10),
      digChar ((⌊q * 100 + 1 / 2⌋).toNat % 10), by simp, natStr_no_dot _,
      digChar_ne_dot _, digChar_ne_dot _⟩

theorem driverRun_cons_term (oneShot skipWord : Bool) (timeout : ℤ)
    (contentFn : ℕ → List (List Char)) (o : RunOutcome) (rest : List RunOutcome)
    (k : ℕ) (results : List Result)
    (ht : (loopStep oneShot results o).terminated = true) :
    driverRun oneShot skipWord timeout contentFn (o :: rest) k results
      = ([⟨contentFn k, timeout, skipWord⟩], (loopStep oneShot results o).results, true) := by
  simp [driverRun, ht]

theorem driverRun_cons_go (oneShot skipWord : Bool) (timeout : ℤ)
    (contentFn : ℕ → List (List Char)) (o : RunOutcome) (rest : List RunOutcome)
    (k : ℕ) (results : List Result)
    (ht : (loopStep oneShot results o).terminated = false) :
    driverRun oneShot skipWord timeout contentFn (o :: rest) k results
      = (⟨contentFn k, timeout, skipWord⟩
            :: (driverRun oneShot skipWord timeout contentFn rest (k + 1) (loopStep oneShot results o).results).1,
         (driverRun oneShot skipWord timeout contentFn rest (k + 1) (loopStep oneShot results o).results).2.1,
         (driverRun oneShot skipWord timeout contentFn rest (k + 1) (loopStep oneShot results o).results).2.2) := by
  simp [driverRun, ht]

/-- Every `Start` call of a driver run passes the construction-time
timeout and `SkipWord`, and content freshly obtained from the content
closure at the call's own call number. -/
theorem driverRun_call (oneShot skipWord : Bool) (timeout : ℤ)
    (contentFn : ℕ → List (List Char)) (outcomes : List RunOutcome)
    (k : ℕ) (results : List Result) (j : ℕ) (call : StartCall)
    (h : (driverRun oneShot skipWord timeout contentFn outcomes k results).1.get? j = some call) :
    call = ⟨contentFn (k + j), timeout, skipWord⟩ := by
  induction outcomes generalizing k results j with
  | nil => simp [driverRun] at h
  | cons o rest ih =>
      rcases Bool.eq_false_or_eq_true (loopStep oneShot results o).terminated with ht | ht
      · rw [driverRun_cons_term _ _ _ _ _ _ _ _ ht] at h
        rcases j with _ | j
        · simp only [List.get?_cons_zero, Option.some.injEq] at h
          rw [← h, Nat.add_zero]
        · simp at h
      · rw [driverRun_cons_go _ _ _ _ _ _ _ _ ht] at h
        rcases j with _ | j
        · simp only [List.get?_cons_zero, Option.some.injEq] at h
          rw [← h, Nat.add_zero]
        · simp only [List.get?_cons_succ] at h
          have hv := ih (k + 1) (loopStep oneShot results o).results j h
          rw [hv]
          have hk : k + 1 + j = k + (j + 1) := by omega
          rw [hk]

theorem recordResult_cpm (o : RunOutcome) :
    (recordResult o).cpm = goTrunc ((o.ncorrect : ℚ) / ((o.t : ℚ) / 60000000000)) :=
  rfl

theorem recordResult_wpm (o : RunOutcome) :
    (recordResult o).wpm = goIntDiv (recordResult o).cpm 5 :=
  rfl

theorem recordResult_acc (o : RunOutcome) :
    (recordResult o).accuracy
      = goFloatMul (goFloatDiv (o.ncorrect : ℚ) ((o.nerrs + o.ncorrect : ℕ) : ℚ)) 100 :=
  rfl

theorem goTrunc_of_nonneg {x : ℚ} (hx : 0 ≤ x) : goTrunc x = ⌊x⌋ :=
  if_pos hx

/-! ### Claims -/

/-- C1: for every run returned with the natural/timeout exit reason
(`exitKey == 0`) and a positive elapsed time, the driver derives the
statistics of the recorded result exactly as `cpm = ncorrect / (t / 60e9)`
truncated to an integer, `wpm = cpm / 5`, and
`accuracy = ncorrect / (nerrs + ncorrect) * 100`. -/
theorem stats_formula (oneShot : Bool) (results : List Result) (o : RunOutcome)
    (hk : o.exitKey = 0) (htpos : 0 < o.t) :
    ∃ r, (loopStep oneShot results o).results = results ++ [r]
      ∧ r.cpm = ⌊(o.ncorrect : ℚ) / ((o.t : ℚ) / 60000000000)⌋
      ∧ r.wpm = r.cpm / 5
      ∧ (0 < o.nerrs + o.ncorrect →
          r.accuracy = some ((o.ncorrect : ℚ) / ((o.nerrs : ℚ) + (o.ncorrect : ℚ)) * 100)) := by
  have htq : (0 : ℚ) < (o.t : ℚ) := by exact_mod_cast htpos
  have hx : 0 ≤ (o.ncorrect : ℚ) / ((o.t : ℚ) / 60000000000) := by positivity
  have hcpm : (recordResult o).cpm = ⌊(o.ncorrect : ℚ) / ((o.t : ℚ) / 60000000000)⌋ := by
    rw [recordResult_cpm, goTrunc_of_nonneg hx]
  refine ⟨recordResult o, ?_, hcpm, ?_, ?_⟩
  · unfold loopStep
    rw [if_pos hk]
    cases oneShot <;> simp
  · rw [recordResult_wpm, goIntDiv]
    exact Int.tdiv_eq_ediv (hcpm ▸ Int.floor_nonneg.mpr hx) (by norm_num)
  · intro htot
    have hD : ((o.nerrs + o.ncorrect : ℕ) : ℚ) ≠ 0 := by
      exact_mod_cast Nat.pos_iff_ne_zero.mp htot
    rw [recordResult_acc, goFloatDiv, if_neg hD, goFloatMul]
    simp only [Option.map_some']
    congr 1
    push_cast
    ring

/-- C1 witness: a 60-second run with 45 correct and 5 wrong keystrokes. -/
theorem stats_formula_witness :
    ∃ r, (loopStep false [] ⟨5, 45, 60000000000, 0⟩).results = [] ++ [r]
      ∧ r.cpm = ⌊(((45 : ℕ) : ℚ)) / (((60000000000 : ℤ) : ℚ) / 60000000000)⌋
      ∧ r.wpm = r.cpm / 5
      ∧ (0 < 5 + 45 →
          r.accuracy = some (((45 : ℕ) : ℚ) / (((5 : ℕ) : ℚ) + ((45 : ℕ) : ℚ)) * 100)) :=
  stats_formula false [] ⟨5, 45, 60000000000, 0⟩ rfl (by norm_num)

/-- C2 counterexample: a run that finishes with the natural/timeout
exit reason and zero total keystrokes. The driver has no zero-total
guard on line 231: it records a non-finite (`0.0/0.0`, NaN) accuracy,
not `0`, and the divisor of the accuracy division is `0`. -/
theorem accuracy_zero_total_cex :
    ((⟨0, 0, 1, 0⟩ : RunOutcome).nerrs + (⟨0, 0, 1, 0⟩ : RunOutcome).ncorrect = 0)
      ∧ ((⟨0, 0, 1, 0⟩ : RunOutcome).exitKey = 0)
      ∧ (loopStep false [] ⟨0, 0, 1, 0⟩).results = [recordResult ⟨0, 0, 1, 0⟩]
      ∧ (recordResult ⟨0, 0, 1, 0⟩).accuracy = none
      ∧ (recordResult ⟨0, 0, 1, 0⟩).accuracy ≠ some 0
      ∧ (((⟨0, 0, 1, 0⟩ : RunOutcome).nerrs + (⟨0, 0, 1, 0⟩ : RunOutcome).ncorrect : ℕ) : ℚ) = 0 := by
  have hacc : (recordResult ⟨0, 0, 1, 0⟩).accuracy = none := by
    rw [recordResult_acc]
    simp [goFloatDiv, goFloatMul]
  refine ⟨rfl, rfl, ?_, hacc, ?_, by norm_num⟩
  · unfold loopStep
    rw [if_pos rfl]
    simp only [if_neg Bool.false_ne_true]
    rw [List.nil_append]
  · rw [hacc]
    simp

/-- C2 amended: for every finished run with the natural/timeout exit
reason whose total keystroke count is zero, the accuracy computation
divides by the zero divisor `float64(nerrs+ncorrect) = 0` (there is no
guard), and the recorded accuracy is the non-finite NaN value, not 0. -/
theorem accuracy_zero_total_amended (oneShot : Bool) (results : List Result)
    (o : RunOutcome) (hk : o.exitKey = 0) (htot : o.nerrs + o.ncorrect = 0) :
    ((o.nerrs + o.ncorrect : ℕ) : ℚ) = 0
      ∧ ∃ r, (loopStep oneShot results o).results = results ++ [r] ∧ r.accuracy = none := by
  refine ⟨by exact_mod_cast htot, recordResult o, ?_, ?_⟩
  · unfold loopStep
    rw [if_pos hk]
    cases oneShot <;> simp
  · rw [recordResult_acc]
    have hD : ((o.nerrs + o.ncorrect : ℕ) : ℚ) = 0 := by exact_mod_cast htot
    rw [goFloatDiv, if_pos hD, goFloatMul]
    simp

/-- C2 amended witness: a one-nanosecond timed-out run with no
keystrokes. -/
theorem accuracy_zero_total_amended_witness :
    (((0 : ℕ) + (0 : ℕ) : ℕ) : ℚ) = 0
      ∧ ∃ r, (loopStep false [] ⟨0, 0, 1, 0⟩).results = [] ++ [r] ∧ r.accuracy = none :=
  accuracy_zero_total_amended false [] ⟨0, 0, 1, 0⟩ rfl rfl

/-- C3: the driver dispatches on the exit reason returned by `Start`:
on the natural/timeout reason (`exitKey == 0`) it computes and records
the statistics and, outside one-shot mode, displays the report and
keeps looping (a new run may start); on the quit reason
(`exitKey == tcell.KeyCtrlC`) it terminates the whole program without
recording anything. -/
theorem exit_dispatch (oneShot : Bool) (results : List Result) (o : RunOutcome) :
    (o.exitKey = 0 →
        (loopStep oneShot results o).results = results ++ [recordResult o]
          ∧ (oneShot = false →
              (loopStep oneShot results o).displayed = true
                ∧ (loopStep oneShot results o).terminated = false))
      ∧ (o.exitKey = keyCtrlC →
          (loopStep oneShot results o).terminated = true
            ∧ (loopStep oneShot results o).results = results
            ∧ (loopStep oneShot results o).displayed = false) := by
  constructor
  · intro hk
    unfold loopStep
    rw [if_pos hk]
    constructor
    · cases oneShot <;> simp
    · intro h1
      subst h1
      simp
  · intro hk
    have h0 : o.exitKey ≠ 0 := by
      rw [hk]
      decide
    unfold loopStep
    rw [if_neg h0, if_pos hk]
    exact ⟨rfl, rfl, rfl⟩

/-- C3 witness: natural finish and Ctrl-C, each at a concrete outcome. -/
theorem exit_dispatch_witness :
    ((loopStep false [] ⟨1, 2, 7, 0⟩).results = [] ++ [recordResult ⟨1, 2, 7, 0⟩]
        ∧ (false = false →
            (loopStep false [] ⟨1, 2, 7, 0⟩).displayed = true
              ∧ (loopStep false [] ⟨1, 2, 7, 0⟩).terminated = false))
      ∧ ((loopStep false [] ⟨1, 2, 7, 3⟩).terminated = true
          ∧ (loopStep false [] ⟨1, 2, 7, 3⟩).results = []
          ∧ (loopStep false [] ⟨1, 2, 7, 3⟩).displayed = false) :=
  ⟨(exit_dispatch false [] ⟨1, 2, 7, 0⟩).1 rfl,
   (exit_dispatch false [] ⟨1, 2, 7, 3⟩).2 rfl⟩

/-- C7: the elapsed duration the engine reports for a finished run is
strictly positive (floor of one clock tick), so the divisor
`float64(t) / 60E9` of the driver's cpm division is nonzero and the
division is well-defined. The engine is not among the provided source
files; `reportedElapsed` is modelled from the spec. -/
theorem elapsed_positive (raw : ℕ) :
    0 < reportedElapsed raw
      ∧ (((reportedElapsed raw : ℕ) : ℚ) / 60000000000) ≠ 0 := by
  constructor
  · unfold reportedElapsed
    omega
  · have h1 : (1 : ℕ) ≤ reportedElapsed raw := by
      unfold reportedElapsed
      omega
    have : (0 : ℚ) < ((reportedElapsed raw : ℕ) : ℚ) := by exact_mod_cast h1
    positivity

/-- C7 witness: a raw elapsed reading of zero is floored to one tick. -/
theorem elapsed_positive_witness :
    0 < reportedElapsed 0
      ∧ (((reportedElapsed 0 : ℕ) : ℚ) / 60000000000) ≠ 0 :=
  elapsed_positive 0

/-- C4: with text piped on stdin and `-raw` absent, the input is split
into segments at the paragraph boundaries (the maximal runs of one or
more blank lines, i.e. of two or more newlines), one segment per
paragraph in input order, each segment then rewritten by the
trim/word-wrap/newline step; with `-raw`, the whole input is one
unmodified segment. -/
theorem content_segmentation (w : List Char → List Char) (b : List Char) :
    pipedContent w b = (specParagraphs b).map (transform w)
      ∧ rawContent b = [b] :=
  ⟨pipedContent_eq_specParagraphs w b, rfl⟩

/-- C4 witness: a concrete two-paragraph input, with the word-wrap
collaborator taken as the identity. -/
theorem content_segmentation_witness :
    pipedContent (fun l => l) ['a', 'b', '\n', '\n', 'c', 'd']
        = (specParagraphs ['a', 'b', '\n', '\n', 'c', 'd']).map (transform (fun l => l))
      ∧ rawContent ['a', 'b', '\n', '\n', 'c', 'd'] = [['a', 'b', '\n', '\n', 'c', 'd']] :=
  content_segmentation (fun l => l) ['a', 'b', '\n', '\n', 'c', 'd']

/-- C5: the `-t` flag defaults to `-1`, which is passed through to
`Start` unchanged (no time limit); a positive number of seconds is
multiplied by `1E9` into nanoseconds; and every `Start` call of the
driver loop receives the same converted value. -/
theorem timeout_conversion :
    effTimeout timeoutFlagDefault = -1
      ∧ (∀ t : ℤ, 0 < t → effTimeout t = t * 1000000000)
      ∧ (∀ (oneShot skipWord : Bool) (t0 : ℤ) (contentFn : ℕ → List (List Char))
          (outcomes : List RunOutcome) (k : ℕ) (results : List Result)
          (j : ℕ) (call : StartCall),
          (driverRun oneShot skipWord (effTimeout t0) contentFn outcomes k results).1.get? j
              = some call →
          call.timeout = effTimeout t0) := by
  refine ⟨rfl, ?_, ?_⟩
  · intro t ht
    unfold effTimeout
    rw [if_pos (show t ≠ -1 by omega)]
  · intro oneShot skipWord t0 contentFn outcomes k results j call h
    rw [driverRun_call oneShot skipWord (effTimeout t0) contentFn outcomes k results j call h]

/-- C5 witness: `-t 2` becomes two billion nanoseconds. -/
theorem timeout_conversion_witness :
    effTimeout 2 = 2 * 1000000000 :=
  timeout_conversion.2.1 2 (by norm_num)

/-- C6: `SkipWord` defaults to `true` and is `false` if and only if the
`-noskip` flag is given; the value fixed at construction is the one the
engine holds at every `Start` call of the driver loop. `NewTyper` is
not among the provided source files; its default is modelled from the
spec. -/
theorem skipword_config :
    skipWordAfterInit false = true
      ∧ (∀ noSkip : Bool, (skipWordAfterInit noSkip = false ↔ noSkip = true))
      ∧ (∀ (oneShot noSkip : Bool) (timeout : ℤ) (contentFn : ℕ → List (List Char))
          (outcomes : List RunOutcome) (k : ℕ) (results : List Result)
          (j : ℕ) (call : StartCall),
          (driverRun oneShot (skipWordAfterInit noSkip) timeout contentFn outcomes k results).1.get? j
              = some call →
          call.skipWord = skipWordAfterInit noSkip) := by
  refine ⟨rfl, ?_, ?_⟩
  · intro noSkip
    cases noSkip <;> simp [skipWordAfterInit, skipWordDefault]
  · intro oneShot noSkip timeout contentFn outcomes k results j call h
    rw [driverRun_call oneShot (skipWordAfterInit noSkip) timeout contentFn outcomes k results j call h]

/-- C6 witness: with `-noskip`, the `Start` call of a one-outcome run
carries `SkipWord = false`. -/
theorem skipword_config_witness :
    (⟨[], 5, skipWordAfterInit true⟩ : StartCall).skipWord = skipWordAfterInit true :=
  skipword_config.2.2 false true 5 (fun _ => []) [⟨0, 0, 1, 3⟩] 0 [] 0
    ⟨[], 5, skipWordAfterInit true⟩ rfl

/-- C8: on an exit key that is neither 0 nor Ctrl-C, the driver records
no result, displays no report and does not terminate; the loop goes on
to the next `Start` call, made with freshly obtained content (the next
call number) and the same timeout and `SkipWord`; and the results log
can only grow on exit key 0. -/
theorem other_keys_restart (oneShot skipWord : Bool) (timeout : ℤ)
    (contentFn : ℕ → List (List Char)) (o : RunOutcome) (rest : List RunOutcome)
    (k : ℕ) (results : List Result)
    (h0 : o.exitKey ≠ 0) (hq : o.exitKey ≠ keyCtrlC) :
    loopStep oneShot results o = ⟨results, false, false⟩
      ∧ driverRun oneShot skipWord timeout contentFn (o :: rest) k results
          = (⟨contentFn k, timeout, skipWord⟩
                :: (driverRun oneShot skipWord timeout contentFn rest (k + 1) results).1,
             (driverRun oneShot skipWord timeout contentFn rest (k + 1) results).2.1,
             (driverRun oneShot skipWord timeout contentFn rest (k + 1) results).2.2)
      ∧ (∀ (oneShot' : Bool) (results' : List Result) (o' : RunOutcome),
          (loopStep oneShot' results' o').results ≠ results' → o'.exitKey = 0) := by
  have hstep : loopStep oneShot results o = ⟨results, false, false⟩ := by
    unfold loopStep
    rw [if_neg h0, if_neg hq]
  refine ⟨hstep, ?_, ?_⟩
  · have ht : (loopStep oneShot results o).terminated = false := by rw [hstep]
    rw [driverRun_cons_go oneShot skipWord timeout contentFn o rest k results ht, hstep]
  · intro oneShot' results' o' hne
    by_contra hk0
    apply hne
    unfold loopStep
    rw [if_neg hk0]
    by_cases hc : o'.exitKey = keyCtrlC
    · rw [if_pos hc]
    · rw [if_neg hc]

/-- C8 witness: the escape-key outcome (`tcell.KeyEscape`, 27) at a
concrete state leaves the results log untouched with no display and no
termination. -/
theorem other_keys_restart_witness :
    loopStep false [] ⟨1, 2, 7, 27⟩ = ⟨[], false, false⟩ :=
  (other_keys_restart false true 5 (fun _ => []) ⟨1, 2, 7, 27⟩ [] 0 []
    (by decide) (by decide)).1

/-- C9 counterexample: a recorded run can carry the non-finite NaN
accuracy (a zero-keystroke natural/timeout finish, as in the C2
counterexample), and its CSV line then prints the accuracy as `NaN`:
the whole line `0,0,NaN` contains no decimal point at all, refuting
"the accuracy with exactly two decimal places" for lines the claim
covers. -/
theorem csv_nan_line_cex :
    (recordResult ⟨0, 0, 1, 0⟩).accuracy = none
      ∧ fmt2 (recordResult ⟨0, 0, 1, 0⟩).accuracy = ['N', 'a', 'N']
      ∧ exitOutput true [recordResult ⟨0, 0, 1, 0⟩] = [csvLine (recordResult ⟨0, 0, 1, 0⟩)]
      ∧ '.' ∉ csvLine (recordResult ⟨0, 0, 1, 0⟩) := by
  have hacc : (recordResult ⟨0, 0, 1, 0⟩).accuracy = none := by
    rw [recordResult_acc]
    simp [goFloatDiv, goFloatMul]
  refine ⟨hacc, ?_, rfl, ?_⟩
  · rw [hacc]
    rfl
  unfold csvLine
  rw [hacc]
  simp only [List.mem_append, List.mem_singleton]
  rintro (((( h | h ) | h ) | h ) | h)
  · exact intStr_no_dot _ h
  · exact absurd h.symm (by decide)
  · exact intStr_no_dot _ h
  · exact absurd h.symm (by decide)
  · revert h
    decide

/-- C9 amended: with CSV mode on, `exit()` prints one line per recorded
run, in record order, shaped `wpm,cpm,accuracy`; a finite accuracy
carries exactly two digits after the decimal point, while the NaN
accuracy of a zero-keystroke run prints as `NaN` (no decimal places);
with CSV mode off it prints nothing; and in one-shot mode a naturally
finished run records its result and terminates the program without
displaying the report. -/
theorem csv_output_amended :
    (∀ results : List Result, exitOutput true results = results.map csvLine)
      ∧ (∀ results : List Result, exitOutput false results = [])
      ∧ (∀ q : ℚ, ∃ ip d1 d2,
          fmt2 (some q) = ip ++ ['.', d1, d2] ∧ '.' ∉ ip ∧ d1 ≠ '.' ∧ d2 ≠ '.')
      ∧ fmt2 none = ['N', 'a', 'N']
      ∧ (∀ (results : List Result) (o : RunOutcome), o.exitKey = 0 →
          loopStep true results o = ⟨results ++ [recordResult o], false, true⟩) := by
  refine ⟨fun results => rfl, fun results => rfl, fmt2_two_decimals, rfl, ?_⟩
  intro results o hk
  unfold loopStep
  rw [if_pos hk]
  simp

/-- C9 amended witness: a natural finish in one-shot mode at a concrete
outcome. -/
theorem csv_output_amended_witness :
    loopStep true [] ⟨1, 2, 7, 0⟩ = ⟨[] ++ [recordResult ⟨1, 2, 7, 0⟩], false, true⟩ :=
  csv_output_amended.2.2.2.2 [] ⟨1, 2, 7, 0⟩ rfl

/-- C10: theme resolution precedence. A nonempty `-theme` flag naming
an unknown theme is an error (message and exit status 1); naming a
known theme selects that theme's six colours with the config file
ignored; with the flag absent, the base is the config file's `theme`
entry when it names a known theme and the `default` theme otherwise,
and each of the six colours is then individually overridden by its
config entry when present. -/
theorem theme_resolution
    (themes : List Char → Option (List Char → List Char))
    (cfg cfg' : List Char → Option (List Char)) (name : List Char) :
    (name ≠ [] → themes name = none → resolveTheme themes cfg name = Except.error ())
      ∧ (∀ th, name ≠ [] → themes name = some th →
          resolveTheme themes cfg name = Except.ok (colorsOfTheme th)
            ∧ resolveTheme themes cfg' name = resolveTheme themes cfg name)
      ∧ (name = [] →
          resolveTheme themes cfg name
            = Except.ok
                ⟨overrideColor cfg kBgcol (baseTheme themes cfg kBgcol),
                 overrideColor cfg kFgcol (baseTheme themes cfg kFgcol),
                 overrideColor cfg kHicol (baseTheme themes cfg kHicol),
                 overrideColor cfg kHicol2 (baseTheme themes cfg kHicol2),
                 overrideColor cfg kHicol3 (baseTheme themes cfg kHicol3),
                 overrideColor cfg kErrcol (baseTheme themes cfg kErrcol)⟩)
      ∧ (∀ c v, cfg kTheme = some c → themes c = some v → baseTheme themes cfg = v)
      ∧ (cfg kTheme = none → baseTheme themes cfg = (themes kDefault).getD (fun _ => []))
      ∧ (∀ c, cfg kTheme = some c → themes c = none →
          baseTheme themes cfg = (themes kDefault).getD (fun _ => [])) := by
  refine ⟨?_, ?_, ?_, ?_, ?_, ?_⟩
  · intro hne hnone
    unfold resolveTheme
    rw [if_pos hne, hnone]
  · intro th hne hsome
    have h1 : resolveTheme themes cfg name = Except.ok (colorsOfTheme th) := by
      unfold resolveTheme
      rw [if_pos hne, hsome]
    have h2 : resolveTheme themes cfg' name = Except.ok (colorsOfTheme th) := by
      unfold resolveTheme
      rw [if_pos hne, hsome]
    exact ⟨h1, h2.trans h1.symm⟩
  · intro hname
    subst hname
    unfold resolveTheme
    rw [if_neg (by simp)]
    rfl
  · intro c v hc hv
    unfold baseTheme
    rw [hc]
    simp only [hv]
  · intro hc
    unfold baseTheme
    rw [hc]
  · intro c hc hnone
    unfold baseTheme
    rw [hc]
    simp only [hnone]

/-- C10 witness: a one-theme table with an empty config, resolved for
an unknown flag value, a known flag value, and an absent flag. -/
theorem theme_resolution_witness :
    (resolveTheme (fun s => if s = ['a'] then some (fun _ => ['1']) else none)
        (fun _ => none) ['z'] = Except.error ())
      ∧ (resolveTheme (fun s => if s = ['a'] then some (fun _ => ['1']) else none)
          (fun _ => none) ['a']
            = Except.ok (colorsOfTheme (fun _ => ['1'])))
      ∧ (baseTheme (fun s => if s = ['a'] then some (fun _ => ['1']) else none)
          (fun _ => none)
            = ((fun s => if s = ['a'] then some (fun _ => ['1']) else none) kDefault).getD
                (fun _ => [])) :=
  ⟨(theme_resolution (fun s => if s = ['a'] then some (fun _ => ['1']) else none)
      (fun _ => none) (fun _ => none) ['z']).1 (by simp) rfl,
   ((theme_resolution (fun s => if s = ['a'] then some (fun _ => ['1']) else none)
      (fun _ => none) (fun _ => none) ['a']).2.1 (fun _ => ['1']) (by simp) rfl).1,
   (theme_resolution (fun s => if s = ['a'] then some (fun _ => ['1']) else none)
      (fun _ => none) (fun _ => none) []).2.2.2.2.1 rfl⟩

end TT
